import Mathlib

/-!
# Verification of the ISS tracker's core functions

Shallow embedding of `app.py`: the TLE fetcher `fetch_tle` and the pass
calculator `calculate_passes`, together with proofs of the specified
properties of the grouping, skipping, duration and error behaviour.

Timestamps are modelled as rationals (Julian-date arithmetic in the source
is real-number arithmetic; subtraction of two Skyfield times yields a span
in days).  Indexing a Python list out of range raises `IndexError`; the
embedding returns `Option` results, `none` standing for such an uncaught
exception.
-/

set_option autoImplicit false

namespace ISSTracker

/-- Timestamps (Skyfield times), as days on the real line, modelled by `ℚ`. -/
abbrev Time := ℚ

/-- One row of the table built by `calculate_passes`: the numeric content
behind the four formatted columns "Rise Time (UTC)", "Max Altitude",
"Direction" and "Duration (min)". -/
structure PassRecord where
  riseTime : Time
  maxAltitude : ℚ
  direction : ℚ
  durationMin : ℚ
  deriving DecidableEq, Repr

/-- The value printed by the `"%.1f"` one-decimal-place format, in tenths:
the format renders `q` as the decimal `fmt1 q / 10`.  (The source formats a
binary float; on the rational model rounding to the nearest tenth.) -/
def fmt1 (q : ℚ) : ℤ := round (10 * q)

/-- The record body of the source loop: rise/culminate/set times of a valid
triple, altitude and azimuth looked up at the culmination instant, and
`duration = (set_time - rise_time) * 24 * 60`.  The propagator's
altitude/azimuth lookup `(iss - observer_location).at(t).altaz()` is the
parameter `altaz`. -/
def mkRec (altaz : Time → ℚ × ℚ) (riseT culmT setT : Time) : PassRecord :=
  { riseTime := riseT
    maxAltitude := (altaz culmT).1
    direction := (altaz culmT).2
    durationMin := (setT - riseT) * 24 * 60 }

/-- The condition `events[i]==0 and events[i+1]==1 and events[i+2]==2`, with
Python's left-to-right short-circuit evaluation; `none` models an
`IndexError` raised while evaluating it. -/
def checkTriple (events : List ℕ) (i : ℕ) : Option Bool :=
  match events[i]? with
  | none => none
  | some e0 =>
    if e0 = 0 then
      match events[i+1]? with
      | none => none
      | some e1 =>
        if e1 = 1 then
          match events[i+2]? with
          | none => none
          | some e2 => some (e2 = 2)
        else some false
    else some false

/-- One iteration of the source loop at index `i`: `some none` when the
triple fails the check (`continue`), `some (some r)` when a record `r` is
appended, `none` when an `IndexError` is raised. -/
def passStep (altaz : Time → ℚ × ℚ) (times : List Time) (events : List ℕ)
    (i : ℕ) : Option (Option PassRecord) :=
  match checkTriple events i with
  | none => none
  | some false => some none
  | some true =>
    match times[i]?, times[i+1]?, times[i+2]? with
    | some riseT, some culmT, some setT => some (some (mkRec altaz riseT culmT setT))
    | _, _, _ => none

/-- The source loop over a list of loop indices, accumulating `pass_data`
in iteration order; `none` models an uncaught `IndexError`. -/
def passLoop (altaz : Time → ℚ × ℚ) (times : List Time) (events : List ℕ) :
    List ℕ → Option (List PassRecord)
  | [] => some []
  | i :: is =>
    match passStep altaz times events i with
    | none => none
    | some none => passLoop altaz times events is
    | some (some r) => (passLoop altaz times events is).map (r :: ·)

/-- The indices visited by `range(0, len(events) - 2, 3)`: Python's
`range(0, stop, 3)` has `max(0, ceil(stop / 3))` elements, which with the
truncated subtraction of `ℕ` standing for the (possibly negative) Python
`stop = n - 2` is `((n - 2) + 2) / 3`. -/
def loopIdx (n : ℕ) : List ℕ := (List.range (((n - 2) + 2) / 3)).map (· * 3)

/-- `calculate_passes` after `find_events` has returned the parallel arrays
`times` and `events`: the grouping/validation/formatting loop.  The result
is the row list of the returned DataFrame; `none` models an uncaught
`IndexError`. -/
def calculate_passes (altaz : Time → ℚ × ℚ) (times : List Time)
    (events : List ℕ) : Option (List PassRecord) :=
  passLoop altaz times events (loopIdx events.length)

/-- Consecutive non-overlapping triples of a time list, each made into a
pass record: the reference shape of the output on an all-valid event
sequence. -/
def passesOfTriples (altaz : Time → ℚ × ℚ) : List Time → List PassRecord
  | t0 :: t1 :: t2 :: rest => mkRec altaz t0 t1 t2 :: passesOfTriples altaz rest
  | _ => []

/-- The event-code sequence `0,1,2` repeated `k` times. -/
def repeat012 (k : ℕ) : List ℕ := (List.replicate k [0, 1, 2]).flatten

/-- The triple starting at `i` reads exactly `(0, 1, 2)`. -/
def triple012 (events : List ℕ) (i : ℕ) : Prop :=
  events[i]? = some 0 ∧ events[i+1]? = some 1 ∧ events[i+2]? = some 2

instance (events : List ℕ) (i : ℕ) : Decidable (triple012 events i) := by
  unfold triple012; infer_instance

/-- A fixed altitude/azimuth lookup used to instantiate theorems at
concrete inputs. -/
def altaz0 : Time → ℚ × ℚ := fun _ => (0, 0)

/- ---------------- TLE fetcher ---------------- -/

/-- Python's `str.strip` whitespace set. -/
def isPySpace (c : Char) : Bool :=
  c == ' ' || c == '\t' || c == '\n' || c == '\r' || c == '\x0b' || c == '\x0c'

/-- `str.strip()`: remove leading and trailing whitespace. The body text is
modelled as a character list. -/
def pyStrip (s : List Char) : List Char :=
  ((s.dropWhile isPySpace).reverse.dropWhile isPySpace).reverse

/-- `str.split('\r\n')`: split on the two-character separator; like
Python's split with a non-empty separator, the empty string yields `[""]`. -/
def splitCRLF : List Char → List (List Char)
  | [] => [[]]
  | '\r' :: '\n' :: rest => [] :: splitCRLF rest
  | c :: rest =>
    match splitCRLF rest with
    | [] => [[c]]
    | l :: ls => (c :: l) :: ls

/-- An HTTP response: status code and body text. -/
structure HttpResponse where
  status : ℕ
  text : List Char
  deriving DecidableEq

/-- Outcome of the `requests.get` call: a response, or a network failure
(`requests.exceptions.RequestException` raised by `get` itself). -/
inductive FetchOutcome where
  | success (resp : HttpResponse)
  | networkFailure
  deriving DecidableEq

/-- What `fetch_tle` does, observably: return three lines, return the null
triple `(None, None, None)`, or let an `IndexError` escape. -/
inductive FetchResult where
  | tle (name line1 line2 : List Char)
  | nullTriple
  | uncaughtIndexError
  deriving DecidableEq, Repr

/-- `fetch_tle`: on a response, `raise_for_status` raises an `HTTPError` (a
`RequestException`, caught, yielding the null triple) exactly when the
status is a 4xx client or 5xx server error, i.e. `400 ≤ status < 600`;
otherwise the body is stripped, split on CRLF, and the first three lines
are indexed out — fewer than three lines raises `IndexError`, which is not
a `RequestException` and escapes. A network failure is caught and yields
the null triple. -/
def fetch_tle : FetchOutcome → FetchResult
  | .networkFailure => .nullTriple
  | .success resp =>
    if 400 ≤ resp.status ∧ resp.status < 600 then .nullTriple
    else
      let tle_data := splitCRLF (pyStrip resp.text)
      match tle_data[0]?, tle_data[1]?, tle_data[2]? with
      | some a, some b, some c => .tle a b c
      | _, _, _ => .uncaughtIndexError

/-- Python truthiness of a string: non-empty. -/
def truthyLine (l : List Char) : Bool := !l.isEmpty

/-- The main-script guard `if not all([iss_name, iss_l1, iss_l2]): st.stop()`:
the rest of the pipeline (satellite construction, position display, pass
calculation) runs only when this is `true`.  An uncaught exception also
stops the script before the pipeline. -/
def pipeline_continues : FetchResult → Bool
  | .tle a b c => truthyLine a && truthyLine b && truthyLine c
  | .nullTriple => false
  | .uncaughtIndexError => false

/- ---------------- Helper lemmas: the loop indices ---------------- -/

theorem loopIdx_eq (n : ℕ) : loopIdx n = (List.range (n / 3)).map (· * 3) := by
  have h : ((n - 2) + 2) / 3 = n / 3 := by omega
  unfold loopIdx
  rw [h]

theorem mem_loopIdx {n i : ℕ} (h : i ∈ loopIdx n) : ∃ m, m < n / 3 ∧ i = m * 3 := by
  rw [loopIdx_eq] at h
  obtain ⟨m, hm, rfl⟩ := List.mem_map.mp h
  exact ⟨m, List.mem_range.mp hm, rfl⟩

theorem mem_loopIdx_lt {n i : ℕ} (h : i ∈ loopIdx n) : i + 2 < n := by
  obtain ⟨m, hm, rfl⟩ := mem_loopIdx h
  omega

/- ---------------- Helper lemmas: one loop iteration ---------------- -/

theorem checkTriple_eq_true_iff {events : List ℕ} {i : ℕ} :
    checkTriple events i = some true ↔ triple012 events i := by
  rcases h0 : events[i]? with _ | e0
  · simp [checkTriple, triple012, h0]
  · by_cases g0 : e0 = 0
    · subst g0
      rcases h1 : events[i+1]? with _ | e1
      · simp [checkTriple, triple012, h0, h1]
      · by_cases g1 : e1 = 1
        · subst g1
          rcases h2 : events[i+2]? with _ | e2
          · simp [checkTriple, triple012, h0, h1, h2]
          · simp [checkTriple, triple012, h0, h1, h2]
        · simp [checkTriple, triple012, h0, h1, g1]
    · simp [checkTriple, triple012, h0, g0]

theorem checkTriple_isSome {events : List ℕ} {i : ℕ} (h : i + 2 < events.length) :
    (checkTriple events i).isSome := by
  have h0 := List.getElem?_eq_getElem (l := events) (show i < events.length by omega)
  have h1 := List.getElem?_eq_getElem (l := events) (show i + 1 < events.length by omega)
  have h2 := List.getElem?_eq_getElem (l := events) (show i + 2 < events.length by omega)
  by_cases g0 : events[i] = 0 <;> by_cases g1 : events[i+1] = 1 <;>
    simp [checkTriple, h0, h1, h2, g0, g1]

theorem passStep_isSome {altaz : Time → ℚ × ℚ} {times : List Time} {events : List ℕ}
    {i : ℕ} (he : i + 2 < events.length) (ht : i + 2 < times.length) :
    (passStep altaz times events i).isSome := by
  unfold passStep
  obtain ⟨b, hb⟩ := Option.isSome_iff_exists.mp (checkTriple_isSome he)
  rw [hb]
  cases b with
  | false => simp
  | true =>
    have h0 := List.getElem?_eq_getElem (l := times) (show i < times.length by omega)
    have h1 := List.getElem?_eq_getElem (l := times) (show i + 1 < times.length by omega)
    have h2 := List.getElem?_eq_getElem (l := times) (show i + 2 < times.length by omega)
    rw [h0, h1, h2]
    simp

theorem passStep_eq_some_some {altaz : Time → ℚ × ℚ} {times : List Time}
    {events : List ℕ} {i : ℕ} {r : PassRecord}
    (h : passStep altaz times events i = some (some r)) :
    triple012 events i ∧
      ∃ tr tc ts, times[i]? = some tr ∧ times[i+1]? = some tc ∧
        times[i+2]? = some ts ∧ r = mkRec altaz tr tc ts := by
  unfold passStep at h
  cases hc : checkTriple events i with
  | none => rw [hc] at h; exact absurd h (by simp)
  | some b =>
    rw [hc] at h
    cases b with
    | false => exact absurd h (by simp)
    | true =>
      refine ⟨checkTriple_eq_true_iff.mp hc, ?_⟩
      cases ht0 : times[i]? with
      | none => rw [ht0] at h; exact absurd h (by simp)
      | some t0 =>
        cases ht1 : times[i+1]? with
        | none => rw [ht0, ht1] at h; exact absurd h (by simp)
        | some t1 =>
          cases ht2 : times[i+2]? with
          | none => rw [ht0, ht1, ht2] at h; exact absurd h (by simp)
          | some t2 =>
            rw [ht0, ht1, ht2] at h
            simp only [Option.some.injEq] at h
            exact ⟨t0, t1, t2, rfl, rfl, rfl, h.symm⟩

theorem passStep_eq_skip {altaz : Time → ℚ × ℚ} {times : List Time}
    {events : List ℕ} {i : ℕ} (he : i + 2 < events.length)
    (hbad : ¬ triple012 events i) :
    passStep altaz times events i = some none := by
  unfold passStep
  obtain ⟨b, hb⟩ := Option.isSome_iff_exists.mp (checkTriple_isSome he)
  rw [hb]
  cases b with
  | false => rfl
  | true => exact absurd (checkTriple_eq_true_iff.mp hb) hbad

/- ---------------- Helper lemmas: the whole loop ---------------- -/

theorem passLoop_cons_none {altaz : Time → ℚ × ℚ} {times : List Time}
    {events : List ℕ} {i : ℕ} {is : List ℕ}
    (hs : passStep altaz times events i = none) :
    passLoop altaz times events (i :: is) = none := by
  simp [passLoop, hs]

theorem passLoop_cons_skip {altaz : Time → ℚ × ℚ} {times : List Time}
    {events : List ℕ} {i : ℕ} {is : List ℕ}
    (hs : passStep altaz times events i = some none) :
    passLoop altaz times events (i :: is) = passLoop altaz times events is := by
  simp [passLoop, hs]

theorem passLoop_cons_rec {altaz : Time → ℚ × ℚ} {times : List Time}
    {events : List ℕ} {i : ℕ} {is : List ℕ} {r : PassRecord}
    (hs : passStep altaz times events i = some (some r)) :
    passLoop altaz times events (i :: is)
      = (passLoop altaz times events is).map (r :: ·) := by
  simp [passLoop, hs]

theorem passLoop_isSome {altaz : Time → ℚ × ℚ} {times : List Time}
    {events : List ℕ} {is : List ℕ}
    (h : ∀ i ∈ is, (passStep altaz times events i).isSome) :
    (passLoop altaz times events is).isSome := by
  induction is with
  | nil => rfl
  | cons i is ih =>
    obtain ⟨o, ho⟩ := Option.isSome_iff_exists.mp (h i (List.mem_cons_self i is))
    have hrest := ih fun j hj => h j (List.mem_cons_of_mem _ hj)
    obtain ⟨l, hl⟩ := Option.isSome_iff_exists.mp hrest
    cases o with
    | none => rw [passLoop_cons_skip ho, hl]; rfl
    | some r => rw [passLoop_cons_rec ho, hl]; rfl

theorem passLoop_mem {altaz : Time → ℚ × ℚ} {times : List Time}
    {events : List ℕ} {is : List ℕ} {l : List PassRecord}
    (h : passLoop altaz times events is = some l) :
    ∀ r ∈ l, ∃ i ∈ is, passStep altaz times events i = some (some r) := by
  induction is generalizing l with
  | nil =>
    intro r hr
    simp [passLoop] at h
    subst h
    exact absurd hr (List.not_mem_nil r)
  | cons i is ih =>
    intro r hr
    cases hs : passStep altaz times events i with
    | none => rw [passLoop_cons_none hs] at h; exact absurd h (by simp)
    | some o =>
      cases o with
      | none =>
        rw [passLoop_cons_skip hs] at h
        obtain ⟨j, hj, hjs⟩ := ih h r hr
        exact ⟨j, List.mem_cons_of_mem _ hj, hjs⟩
      | some r0 =>
        rw [passLoop_cons_rec hs] at h
        cases hl : passLoop altaz times events is with
        | none => rw [hl] at h; exact absurd h (by simp)
        | some l0 =>
          rw [hl] at h
          simp at h
          subst h
          rcases List.mem_cons.mp hr with hr0 | hr1
          · exact ⟨i, List.mem_cons_self i is, hr0 ▸ hs⟩
          · obtain ⟨j, hj, hjs⟩ := ih hl r hr1
            exact ⟨j, List.mem_cons_of_mem _ hj, hjs⟩

theorem passLoop_all_skip {altaz : Time → ℚ × ℚ} {times : List Time}
    {events : List ℕ} {is : List ℕ}
    (h : ∀ i ∈ is, passStep altaz times events i = some none) :
    passLoop altaz times events is = some [] := by
  induction is with
  | nil => rfl
  | cons i is ih =>
    rw [passLoop_cons_skip (h i (List.mem_cons_self i is))]
    exact ih fun j hj => h j (List.mem_cons_of_mem _ hj)

theorem passLoop_congr {altaz : Time → ℚ × ℚ} {times1 times2 : List Time}
    {events1 events2 : List ℕ} {is : List ℕ}
    (h : ∀ i ∈ is, passStep altaz times1 events1 i = passStep altaz times2 events2 i) :
    passLoop altaz times1 events1 is = passLoop altaz times2 events2 is := by
  induction is with
  | nil => rfl
  | cons i is ih =>
    have hi := h i (List.mem_cons_self i is)
    have ihh := ih fun j hj => h j (List.mem_cons_of_mem _ hj)
    cases hs : passStep altaz times2 events2 i with
    | none => rw [passLoop_cons_none (hi.trans hs), passLoop_cons_none hs]
    | some o =>
      cases o with
      | none => rw [passLoop_cons_skip (hi.trans hs), passLoop_cons_skip hs, ihh]
      | some r => rw [passLoop_cons_rec (hi.trans hs), passLoop_cons_rec hs, ihh]

/- ---------------- Helper lemmas: shifting by one triple ---------------- -/

theorem getElem?_cons3 {α : Type _} (a b c : α) (l : List α) (i : ℕ) :
    (a :: b :: c :: l)[i + 3]? = l[i]? := by
  have h : i + 3 = (i + 1 + 1) + 1 := by omega
  rw [h, List.getElem?_cons_succ, List.getElem?_cons_succ, List.getElem?_cons_succ]

theorem passStep_shift3 (altaz : Time → ℚ × ℚ) (t0 t1 t2 : Time) (ts : List Time)
    (e0 e1 e2 : ℕ) (es : List ℕ) (i : ℕ) :
    passStep altaz (t0 :: t1 :: t2 :: ts) (e0 :: e1 :: e2 :: es) (i + 3)
      = passStep altaz ts es i := by
  have h1 : i + 3 + 1 = (i + 1) + 3 := by omega
  have h2 : i + 3 + 2 = (i + 2) + 3 := by omega
  have hc : checkTriple (e0 :: e1 :: e2 :: es) (i + 3) = checkTriple es i := by
    unfold checkTriple
    rw [getElem?_cons3, h1, getElem?_cons3, h2, getElem?_cons3]
  unfold passStep
  rw [hc, getElem?_cons3, h1, getElem?_cons3, h2, getElem?_cons3]

theorem passLoop_shift3 (altaz : Time → ℚ × ℚ) (t0 t1 t2 : Time) (ts : List Time)
    (e0 e1 e2 : ℕ) (es : List ℕ) (is : List ℕ) :
    passLoop altaz (t0 :: t1 :: t2 :: ts) (e0 :: e1 :: e2 :: es) (is.map (· + 3))
      = passLoop altaz ts es is := by
  induction is with
  | nil => rfl
  | cons i is ih =>
    rw [List.map_cons]
    cases hs : passStep altaz ts es i with
    | none =>
      rw [passLoop_cons_none ((passStep_shift3 altaz t0 t1 t2 ts e0 e1 e2 es i).trans hs),
        passLoop_cons_none hs]
    | some o =>
      cases o with
      | none =>
        rw [passLoop_cons_skip ((passStep_shift3 altaz t0 t1 t2 ts e0 e1 e2 es i).trans hs),
          passLoop_cons_skip hs, ih]
      | some r =>
        rw [passLoop_cons_rec ((passStep_shift3 altaz t0 t1 t2 ts e0 e1 e2 es i).trans hs),
          passLoop_cons_rec hs, ih]

/- ---------------- Helper lemmas: the repeating pattern ---------------- -/

theorem repeat012_succ (k : ℕ) : repeat012 (k + 1) = 0 :: 1 :: 2 :: repeat012 k := by
  simp [repeat012, List.replicate_succ]

theorem length_repeat012 (k : ℕ) : (repeat012 k).length = 3 * k := by
  induction k with
  | zero => rfl
  | succ k ih =>
    rw [repeat012_succ]
    simp only [List.length_cons, ih]
    omega

theorem loopIdx_succ_triple (k : ℕ) :
    loopIdx (3 * (k + 1)) = 0 :: (loopIdx (3 * k)).map (· + 3) := by
  rw [loopIdx_eq, loopIdx_eq,
    Nat.mul_div_cancel_left _ (show 0 < 3 by omega),
    Nat.mul_div_cancel_left _ (show 0 < 3 by omega),
    List.range_succ_eq_map, List.map_cons, List.map_map, List.map_map]
  refine congrArg₂ _ rfl (List.map_congr_left ?_)
  intro m _
  simp only [Function.comp_apply]
  omega

/- ---------------- Helper lemmas: chronological order ---------------- -/

theorem passLoop_sorted {altaz : Time → ℚ × ℚ} {times : List Time}
    {events : List ℕ} {is : List ℕ} {l : List PassRecord}
    (hts : List.Pairwise (· ≤ ·) times) (his : List.Pairwise (· < ·) is)
    (h : passLoop altaz times events is = some l) :
    List.Pairwise (· ≤ ·) (l.map PassRecord.riseTime) := by
  induction is generalizing l with
  | nil =>
    simp [passLoop] at h
    subst h
    simp
  | cons i is ih =>
    cases hs : passStep altaz times events i with
    | none => rw [passLoop_cons_none hs] at h; exact absurd h (by simp)
    | some o =>
      cases o with
      | none =>
        rw [passLoop_cons_skip hs] at h
        exact ih his.of_cons h
      | some r =>
        rw [passLoop_cons_rec hs] at h
        cases hl : passLoop altaz times events is with
        | none => rw [hl] at h; exact absurd h (by simp)
        | some l0 =>
          rw [hl] at h
          simp at h
          subst h
          rw [List.map_cons]
          refine List.Pairwise.cons ?_ (ih his.of_cons hl)
          intro x hx
          obtain ⟨r1, hr1, rfl⟩ := List.mem_map.mp hx
          obtain ⟨j, hj, hstep1⟩ := passLoop_mem hl r1 hr1
          have hij : i < j := (List.pairwise_cons.mp his).1 j hj
          obtain ⟨-, tri, tci, tsi, h0i, -, -, hreci⟩ := passStep_eq_some_some hs
          obtain ⟨-, trj, tcj, tsj, h0j, -, -, hrecj⟩ := passStep_eq_some_some hstep1
          obtain ⟨hilt, hieq⟩ := List.getElem?_eq_some_iff.mp h0i
          obtain ⟨hjlt, hjeq⟩ := List.getElem?_eq_some_iff.mp h0j
          have hle := List.pairwise_iff_getElem.mp hts i j hilt hjlt hij
          rw [hreci, hrecj]
          show tri ≤ trj
          rw [← hieq, ← hjeq]
          exact hle

/- ---------------- Claim theorems: pass calculator ---------------- -/

/-- Claim C1: on a flat event sequence whose codes are exactly the repeating
pattern `0,1,2,0,1,2,...` of length `3 * k`, the grouping step of
`calculate_passes` produces exactly `k` pass records, each built from one
consecutive triple of the time list, and raises no error. -/
theorem c1_repeating_pattern_all_valid (altaz : Time → ℚ × ℚ) (k : ℕ)
    (times : List Time) (hlen : times.length = 3 * k) :
    calculate_passes altaz times (repeat012 k) = some (passesOfTriples altaz times)
      ∧ (passesOfTriples altaz times).length = k := by
  induction k generalizing times with
  | zero =>
    have hnil : times = [] := List.length_eq_zero.mp (by omega)
    subst hnil
    exact ⟨rfl, rfl⟩
  | succ k ih =>
    rcases times with _ | ⟨t0, times⟩
    · simp at hlen
    rcases times with _ | ⟨t1, times⟩
    · simp at hlen; omega
    rcases times with _ | ⟨t2, rest⟩
    · simp at hlen; omega
    have hr : rest.length = 3 * k := by
      simp only [List.length_cons] at hlen
      omega
    obtain ⟨ih1, ih2⟩ := ih rest hr
    constructor
    · unfold calculate_passes
      rw [repeat012_succ]
      have hlen2 : (0 :: 1 :: 2 :: repeat012 k : List ℕ).length = 3 * (k + 1) := by
        simp only [List.length_cons, length_repeat012]
        omega
      rw [hlen2, loopIdx_succ_triple]
      have hstep : passStep altaz (t0 :: t1 :: t2 :: rest) (0 :: 1 :: 2 :: repeat012 k) 0
          = some (some (mkRec altaz t0 t1 t2)) := by
        simp [passStep, checkTriple, List.getElem?_cons_zero, List.getElem?_cons_succ]
      rw [passLoop_cons_rec hstep, passLoop_shift3]
      have hrest : passLoop altaz rest (repeat012 k) (loopIdx (3 * k))
          = some (passesOfTriples altaz rest) := by
        have h1 := ih1
        unfold calculate_passes at h1
        rwa [length_repeat012] at h1
      rw [hrest]
      rfl
    · show (passesOfTriples altaz (t0 :: t1 :: t2 :: rest)).length = k + 1
      show (mkRec altaz t0 t1 t2 :: passesOfTriples altaz rest).length = k + 1
      rw [List.length_cons, ih2]

/-- Claim C2: on a flat event sequence whose length is not a multiple of 3,
`calculate_passes` raises no error (never indexes past the end of either
parallel array), and the trailing partial group is dropped: the result is
the same as on the sequence truncated to the last full triple. -/
theorem c2_trailing_partial_dropped (altaz : Time → ℚ × ℚ) (times : List Time)
    (events : List ℕ) (hlen : times.length = events.length)
    (hmod : events.length % 3 ≠ 0) :
    (calculate_passes altaz times events).isSome
      ∧ calculate_passes altaz times events
        = calculate_passes altaz (times.take (events.length / 3 * 3))
            (events.take (events.length / 3 * 3)) := by
  constructor
  · apply passLoop_isSome
    intro i hi
    have hlt := mem_loopIdx_lt hi
    exact passStep_isSome hlt (by omega)
  · unfold calculate_passes
    have htake : (events.take (events.length / 3 * 3)).length
        = events.length / 3 * 3 := by
      rw [List.length_take]
      omega
    have hdiv : events.length / 3 * 3 / 3 = events.length / 3 := by omega
    have hidx : loopIdx (events.length / 3 * 3) = loopIdx events.length := by
      rw [loopIdx_eq, loopIdx_eq, hdiv]
    rw [htake, hidx]
    apply passLoop_congr
    intro i hi
    obtain ⟨m, hm, rfl⟩ := mem_loopIdx hi
    have h0e := List.getElem?_take_of_lt (l := events) (m := m * 3)
      (show m * 3 < events.length / 3 * 3 by omega)
    have h1e := List.getElem?_take_of_lt (l := events) (m := m * 3 + 1)
      (show m * 3 + 1 < events.length / 3 * 3 by omega)
    have h2e := List.getElem?_take_of_lt (l := events) (m := m * 3 + 2)
      (show m * 3 + 2 < events.length / 3 * 3 by omega)
    have h0t := List.getElem?_take_of_lt (l := times) (m := m * 3)
      (show m * 3 < events.length / 3 * 3 by omega)
    have h1t := List.getElem?_take_of_lt (l := times) (m := m * 3 + 1)
      (show m * 3 + 1 < events.length / 3 * 3 by omega)
    have h2t := List.getElem?_take_of_lt (l := times) (m := m * 3 + 2)
      (show m * 3 + 2 < events.length / 3 * 3 by omega)
    unfold passStep checkTriple
    rw [h0e, h1e, h2e, h0t, h1t, h2t]

/-- Claim C3: a triple considered by the grouping step whose codes are not
exactly `(0,1,2)` in order — such as `(1,2,0)` — is skipped without an
error, and consequently every pass record in the output arises from a
considered triple whose codes read exactly `(rise=0, culminate=1, set=2)`. -/
theorem c3_only_ordered_triples (altaz : Time → ℚ × ℚ) :
    (∀ (times : List Time) (events : List ℕ) (l : List PassRecord),
        calculate_passes altaz times events = some l →
        ∀ r ∈ l, ∃ i ∈ loopIdx events.length, triple012 events i ∧
          ∃ tr tc ts, times[i]? = some tr ∧ times[i+1]? = some tc ∧
            times[i+2]? = some ts ∧ r = mkRec altaz tr tc ts)
      ∧ ∀ t0 t1 t2 : Time, calculate_passes altaz [t0, t1, t2] [1, 2, 0] = some [] := by
  constructor
  · intro times events l h r hr
    obtain ⟨i, hi, hstep⟩ := passLoop_mem h r hr
    obtain ⟨htri, tr, tc, ts, h0, h1, h2, hrec⟩ := passStep_eq_some_some hstep
    exact ⟨i, hi, htri, tr, tc, ts, h0, h1, h2, hrec⟩
  · intro t0 t1 t2
    rfl

/-- Claim C4: every pass record produced from a valid triple carries
`duration = (set_time − rise_time)`, a span in days, times `24 * 60 = 1440`
minutes, and its one-decimal-place rendering is that of
`(set_time − rise_time) * 1440`. -/
theorem c4_duration_minutes (altaz : Time → ℚ × ℚ) (times : List Time)
    (events : List ℕ) (l : List PassRecord)
    (h : calculate_passes altaz times events = some l) :
    ∀ r ∈ l, ∃ i tr ts, times[i]? = some tr ∧ times[i+2]? = some ts ∧
      r.durationMin = (ts - tr) * 1440 ∧ fmt1 r.durationMin = fmt1 ((ts - tr) * 1440) := by
  intro r hr
  obtain ⟨i, _, hstep⟩ := passLoop_mem h r hr
  obtain ⟨-, tr, tc, ts, h0, -, h2, hrec⟩ := passStep_eq_some_some hstep
  subst hrec
  have hd : (mkRec altaz tr tc ts).durationMin = (ts - tr) * 1440 := by
    show (ts - tr) * 24 * 60 = (ts - tr) * 1440
    ring
  exact ⟨i, tr, ts, h0, h2, hd, by rw [hd]⟩

/-- Claim C5: an event sequence with zero qualifying `(0,1,2)` triples
among the considered groups — including the empty sequence — yields the
empty (but valid, non-null) result and raises no error. -/
theorem c5_zero_triples_empty_result (altaz : Time → ℚ × ℚ) (times : List Time)
    (events : List ℕ) (hlen : times.length = events.length)
    (hno : ∀ i ∈ loopIdx events.length, ¬ triple012 events i) :
    calculate_passes altaz times events = some [] := by
  apply passLoop_all_skip
  intro i hi
  exact passStep_eq_skip (mem_loopIdx_lt hi) (hno i hi)

/-- Claim C8: the six-event sequence with codes `0,1,2,0,1,2` produces
exactly two pass records, the first spanning `t0..t2` and the second
`t3..t5`, in that order; and in general, when the propagator's time list is
chronologically ordered, the output records' insertion order is
chronological order of their rise times. -/
theorem c8_two_passes_in_order :
    (∀ (altaz : Time → ℚ × ℚ) (t0 t1 t2 t3 t4 t5 : Time),
        calculate_passes altaz [t0, t1, t2, t3, t4, t5] [0, 1, 2, 0, 1, 2]
          = some [mkRec altaz t0 t1 t2, mkRec altaz t3 t4 t5])
      ∧ ∀ (altaz : Time → ℚ × ℚ) (times : List Time) (events : List ℕ)
          (l : List PassRecord), List.Pairwise (· ≤ ·) times →
          calculate_passes altaz times events = some l →
          List.Pairwise (· ≤ ·) (l.map PassRecord.riseTime) := by
  constructor
  · intro altaz t0 t1 t2 t3 t4 t5
    rfl
  · intro altaz times events l hts h
    refine passLoop_sorted hts ?_ h
    rw [loopIdx_eq]
    refine (List.pairwise_map).mpr ?_
    refine List.Pairwise.imp ?_ (List.pairwise_lt_range _)
    intro a b hab
    omega

/-- Claim C10: the grouping step inspects only triples starting at the
fixed indices `0, 3, 6, ...` and never realigns after a rejected triple, so
the sequence with codes `1,2,0,1,2,0` yields zero pass records even though
the consecutive run at offsets `2,3,4` reads `(0,1,2)` in order. -/
theorem c10_no_realignment :
    (∀ n : ℕ, loopIdx n = (List.range (n / 3)).map (· * 3))
      ∧ (∀ (altaz : Time → ℚ × ℚ) (t0 t1 t2 t3 t4 t5 : Time),
          calculate_passes altaz [t0, t1, t2, t3, t4, t5] [1, 2, 0, 1, 2, 0] = some [])
      ∧ ([1, 2, 0, 1, 2, 0] : List ℕ)[2]? = some 0
      ∧ ([1, 2, 0, 1, 2, 0] : List ℕ)[3]? = some 1
      ∧ ([1, 2, 0, 1, 2, 0] : List ℕ)[4]? = some 2 := by
  refine ⟨loopIdx_eq, fun altaz t0 t1 t2 t3 t4 t5 => rfl, rfl, rfl, rfl⟩

/- ---------------- Claim theorems: TLE fetcher ---------------- -/

/-- Claim C6: a fetch attempt ending in a non-success HTTP status (a
4xx/5xx error, exactly when `raise_for_status` raises) or a network
failure makes `fetch_tle` return the null triple `(None, None, None)`
rather than propagate an exception, and the guarded pipeline (satellite
construction, position display, pass calculation) does not run
afterwards. -/
theorem c6_failure_null_and_stop (o : FetchOutcome)
    (h : o = .networkFailure
      ∨ ∃ resp, o = .success resp ∧ 400 ≤ resp.status ∧ resp.status < 600) :
    fetch_tle o = .nullTriple ∧ pipeline_continues (fetch_tle o) = false := by
  rcases h with rfl | ⟨resp, rfl, hst⟩
  · exact ⟨rfl, rfl⟩
  · have hnull : fetch_tle (.success resp) = .nullTriple := by
      simp only [fetch_tle]
      rw [if_pos hst]
    exact ⟨hnull, by rw [hnull]; rfl⟩

/-- Claim C7, counterexample: the source splits the *stripped* body, not
the body itself, so for a successful response whose body begins with
whitespace the returned name is not the first line of the CRLF-split body
verbatim: `fetch_tle` drops the leading space. -/
theorem c7_counterexample :
    fetch_tle (.success ⟨200, " A\r\nB\r\nC".toList⟩)
        = .tle "A".toList "B".toList "C".toList
      ∧ (splitCRLF (" A\r\nB\r\nC".toList))[0]? = some (" A".toList)
      ∧ " A".toList ≠ "A".toList := by
  refine ⟨?_, ?_, ?_⟩ <;> decide

/-- Claim C7, amended: for every successful HTTP response, `fetch_tle`
splits the whitespace-stripped response body on CRLF line breaks and, when
that split yields at least three lines, returns the first three verbatim as
`(name, line1, line2)`. -/
theorem c7_amended_strip_then_split (resp : HttpResponse) (hok : resp.status < 400)
    (a b c : List Char) (rest : List (List Char))
    (hsplit : splitCRLF (pyStrip resp.text) = a :: b :: c :: rest) :
    fetch_tle (.success resp) = .tle a b c := by
  simp only [fetch_tle]
  rw [if_neg (by omega), hsplit]
  simp [List.getElem?_cons_zero, List.getElem?_cons_succ]

/-- Claim C9: when the HTTP request succeeds but the stripped response body
splits into fewer than three CRLF-separated lines (empty body, short body,
LF-only delimiters), `fetch_tle` raises an uncaught `IndexError` — it is
not a `RequestException`, so the handler does not catch it — instead of
returning the null triple. -/
theorem c9_short_body_uncaught_index_error (resp : HttpResponse)
    (hok : resp.status < 400)
    (hshort : (splitCRLF (pyStrip resp.text)).length < 3) :
    fetch_tle (.success resp) = .uncaughtIndexError := by
  have h2 : (splitCRLF (pyStrip resp.text))[2]? = none :=
    List.getElem?_eq_none_iff.mpr (by omega)
  simp only [fetch_tle]
  rw [if_neg (by omega)]
  rcases h0 : (splitCRLF (pyStrip resp.text))[0]? with _ | a <;>
    rcases h1 : (splitCRLF (pyStrip resp.text))[1]? with _ | b <;>
      rw [h2]

/- ---------------- Witnesses ---------------- -/

/-- Witness for C1 at `k = 1`, `times = [0, 1, 2]`. -/
theorem c1_witness :
    calculate_passes altaz0 [0, 1, 2] (repeat012 1)
        = some (passesOfTriples altaz0 [0, 1, 2])
      ∧ (passesOfTriples altaz0 [0, 1, 2]).length = 1 :=
  c1_repeating_pattern_all_valid altaz0 1 [0, 1, 2] rfl

/-- Witness for C2 at a length-4 sequence ending in a lone rise event. -/
theorem c2_witness :
    (calculate_passes altaz0 [0, 1, 2, 3] [0, 1, 2, 0]).isSome
      ∧ calculate_passes altaz0 [0, 1, 2, 3] [0, 1, 2, 0]
        = calculate_passes altaz0
            ([0, 1, 2, 3].take (([0, 1, 2, 0] : List ℕ).length / 3 * 3))
            (([0, 1, 2, 0] : List ℕ).take (([0, 1, 2, 0] : List ℕ).length / 3 * 3)) :=
  c2_trailing_partial_dropped altaz0 [0, 1, 2, 3] [0, 1, 2, 0] rfl (by decide)

/-- Witness for C3 at the valid sequence `[0, 1, 2]`. -/
theorem c3_witness :
    ∃ i ∈ loopIdx (([0, 1, 2] : List ℕ).length), triple012 [0, 1, 2] i ∧
      ∃ tr tc ts, ([0, 1, 2] : List Time)[i]? = some tr ∧
        ([0, 1, 2] : List Time)[i+1]? = some tc ∧
        ([0, 1, 2] : List Time)[i+2]? = some ts ∧
        mkRec altaz0 0 1 2 = mkRec altaz0 tr tc ts :=
  (c3_only_ordered_triples altaz0).1 [0, 1, 2] [0, 1, 2] [mkRec altaz0 0 1 2] rfl
    (mkRec altaz0 0 1 2) (List.mem_singleton.mpr rfl)

/-- Witness for C4 at the valid sequence `[0, 1, 2]`. -/
theorem c4_witness :
    ∃ i tr ts, ([0, 1, 2] : List Time)[i]? = some tr ∧
      ([0, 1, 2] : List Time)[i+2]? = some ts ∧
      (mkRec altaz0 0 1 2).durationMin = (ts - tr) * 1440 ∧
      fmt1 (mkRec altaz0 0 1 2).durationMin = fmt1 ((ts - tr) * 1440) :=
  c4_duration_minutes altaz0 [0, 1, 2] [0, 1, 2] [mkRec altaz0 0 1 2] rfl
    (mkRec altaz0 0 1 2) (List.mem_singleton.mpr rfl)

/-- Witness for C5 at the skipped triple `(1, 2, 0)`. -/
theorem c5_witness : calculate_passes altaz0 [0, 1, 2] [1, 2, 0] = some [] :=
  c5_zero_triples_empty_result altaz0 [0, 1, 2] [1, 2, 0] rfl (by decide)

/-- Witness for C8's ordering part at the two-pass sequence. -/
theorem c8_witness :
    List.Pairwise (· ≤ ·)
      (([mkRec altaz0 0 1 2, mkRec altaz0 3 4 5]).map PassRecord.riseTime) :=
  c8_two_passes_in_order.2 altaz0 [0, 1, 2, 3, 4, 5] [0, 1, 2, 0, 1, 2]
    [mkRec altaz0 0 1 2, mkRec altaz0 3 4 5] (by decide) rfl

/-- Witness for C6 at a network failure. -/
theorem c6_witness :
    fetch_tle .networkFailure = .nullTriple
      ∧ pipeline_continues (fetch_tle .networkFailure) = false :=
  c6_failure_null_and_stop .networkFailure (Or.inl rfl)

/-- Witness for C7's amended statement at a well-formed three-line body. -/
theorem c7_witness :
    fetch_tle (.success ⟨200, "ISS (ZARYA)\r\nL1\r\nL2".toList⟩)
      = .tle ("ISS (ZARYA)".toList) ("L1".toList) ("L2".toList) :=
  c7_amended_strip_then_split ⟨200, "ISS (ZARYA)\r\nL1\r\nL2".toList⟩ (by decide)
    ("ISS (ZARYA)".toList) ("L1".toList) ("L2".toList) [] (by decide)

/-- Witness for C9 at a successful response with an LF-only body. -/
theorem c9_witness :
    fetch_tle (.success ⟨200, "A\nB\nC".toList⟩) = .uncaughtIndexError :=
  c9_short_body_uncaught_index_error ⟨200, "A\nB\nC".toList⟩ (by decide) (by decide)

end ISSTracker
